import Mathlib

/-!
Verification of the Chart-Generator frontend (React/Next.js).

The development shallowly embeds the data-handling functions of the
repository:

* `aggregateData` from `src/components/QueryPlayground.jsx` (the client-side
  reducer, with its Outcome/Age special cases, the categorical+numeric
  grouping branch, the numeric-only averaging branch and plain truncation);
* `parseCSV` and `handleFileUpload` from `src/components/DataUploader.jsx`
  (both variants of the uploader);
* `checkServerStatus` from `src/services/api.js`;
* `handleQuerySubmit` from the backend-integrated `QueryPlayground` variant;
* `cleanGeneratedCode` from `src/components/QueryPlayground.jsx`.

JavaScript values are modelled by a tagged type `JVal` (numbers as exact
rationals, with a separate `nan` tag; `undef` stands for `undefined`).
Row objects are insertion-ordered association lists, written only through
`rowSet`, which mirrors JS property assignment (overwrite keeps the original
key position, new keys append).  IEEE-754 artefacts (binary rounding of
`toFixed`, `Number` on exotic literals such as hex or `Infinity`) are
approximated by exact rational arithmetic; no claim below depends on them.
-/

set_option synthInstance.maxSize 512

namespace ChartGen

/-- A JavaScript value as it appears in uploaded tables: a finite number
(exact rational), `NaN`, a string, a boolean, `null` or `undefined`. -/
inductive JVal where
  | num (q : ℚ)
  | nan
  | str (s : String)
  | bool (b : Bool)
  | null
  | undef
  deriving DecidableEq, Repr, Inhabited

/-- A row object: insertion-ordered list of (property name, value). -/
abbrev Row := List (String × JVal)

/-- Property read, `item[k]`: the value at the first matching key,
`undefined` when absent. -/
def rowGet (r : Row) (k : String) : JVal :=
  match r.find? (fun p => p.1 == k) with
  | some p => p.2
  | none => JVal.undef

/-- Property write, `item[k] = v`: overwrite in place (keeping the key's
original position) or append a fresh key, as JS objects do. -/
def rowSet : Row → String → JVal → Row
  | [], k, v => [(k, v)]
  | (k', v') :: rest, k, v =>
      if k' = k then (k', v) :: rest else (k', v') :: rowSet rest k v

/-- `Object.keys`. -/
def rowKeys (r : Row) : List String := r.map Prod.fst

/-- An object literal `{k₁: v₁, ...}`: sequential property assignment,
so duplicate keys collapse JS-style (first position, last value). -/
def mkRow (ps : List (String × JVal)) : Row :=
  ps.foldl (fun r p => rowSet r p.1 p.2) []

/-- `String.prototype.trim`, written structurally over the character
list so that it evaluates by kernel reduction. -/
def trimChars (cs : List Char) : List Char :=
  ((cs.dropWhile Char.isWhitespace).reverse.dropWhile Char.isWhitespace).reverse

/-- `s.trim` for JS strings. -/
def jsTrim (s : String) : String := String.mk (trimChars s.data)

/-- `Number(s)` on a string, as an exact rational; `none` is `NaN`.
The empty / all-whitespace string coerces to `0`; otherwise the whole
trimmed string must be a signed decimal literal with optional fraction
and exponent.  (Hex literals and `Infinity` are outside the model and
coerce to `NaN` here.) -/
def strToNumber (s : String) : Option ℚ :=
  let t := jsTrim s
  if t = "" then some 0
  else
    let cs := t.data
    let (sign, cs) : ℚ × List Char :=
      match cs with
      | '-' :: rest => (-1, rest)
      | '+' :: rest => (1, rest)
      | _ => (1, cs)
    let ip := cs.takeWhile Char.isDigit
    let cs := cs.dropWhile Char.isDigit
    let (frac, cs) : Option (List Char) × List Char :=
      match cs with
      | '.' :: rest => (some (rest.takeWhile Char.isDigit), rest.dropWhile Char.isDigit)
      | _ => (none, cs)
    let digitsVal : List Char → ℕ :=
      fun ds => ds.foldl (fun n c => 10 * n + (c.toNat - '0'.toNat)) 0
    let mantissa? : Option ℚ :=
      match frac with
      | none => if ip.isEmpty then none else some (digitsVal ip : ℚ)
      | some fp =>
          if ip.isEmpty && fp.isEmpty then none
          else some ((digitsVal ip : ℚ) + (digitsVal fp : ℚ) / (10 ^ fp.length))
    let expo? : Option (ℤ × List Char) :=
      match cs with
      | 'e' :: rest | 'E' :: rest =>
          let (esign, rest) : ℤ × List Char :=
            match rest with
            | '-' :: r => (-1, r)
            | '+' :: r => (1, r)
            | _ => (1, rest)
          let ed := rest.takeWhile Char.isDigit
          if ed.isEmpty then none
          else some (esign * (digitsVal ed : ℤ), rest.dropWhile Char.isDigit)
      | _ => some (0, cs)
    match mantissa?, expo? with
    | some mq, some (e, rest) =>
        if rest.isEmpty then some (sign * mq * (10 : ℚ) ^ e) else none
    | _, _ => none

/-- `Number(v)`; `none` is `NaN`. -/
def jsNumberV : JVal → Option ℚ
  | JVal.num q => some q
  | JVal.nan => none
  | JVal.str s => strToNumber s
  | JVal.bool b => some (if b then 1 else 0)
  | JVal.null => some 0
  | JVal.undef => none

/-- `typeof v === 'number'` (`NaN` is a number in JS). -/
def typeofNum : JVal → Bool
  | JVal.num _ => true
  | JVal.nan => true
  | _ => false

/-- `typeof v === 'string'`. -/
def typeofStr : JVal → Bool
  | JVal.str _ => true
  | _ => false

/-- JS truthiness. -/
def jsTruthy : JVal → Bool
  | JVal.num q => decide (q ≠ 0)
  | JVal.nan => false
  | JVal.str s => s ≠ ""
  | JVal.bool b => b
  | JVal.null => false
  | JVal.undef => false

/-- `String(v)`, used only as a property key when grouping (decimal
formatting of non-integral rationals is approximated by the `ℚ`
representation; the encoding stays injective on numbers). -/
def jsToString : JVal → String
  | JVal.str s => s
  | JVal.num q => if q.den = 1 then toString q.num else toString q
  | JVal.nan => "NaN"
  | JVal.bool b => if b then "true" else "false"
  | JVal.null => "null"
  | JVal.undef => "undefined"

/-- Numeric accumulation `v + w` where `v` is a JS value and `w` an already
coerced number; `NaN` is absorbing. -/
def jsAddNum (v : JVal) (w : Option ℚ) : JVal :=
  match jsNumberV v, w with
  | some a, some b => JVal.num (a + b)
  | _, _ => JVal.nan

/-- Stable insertion step: `x` (from earlier in the original array) is
placed before the first element that does not strictly precede it, which
matches a stable comparator sort. -/
def insertBy (lt : α → α → Bool) (x : α) : List α → List α
  | [] => [x]
  | y :: ys => if lt y x then y :: insertBy lt x ys else x :: y :: ys

/-- Stable sort with strict precedence `lt` (model of `Array.prototype.sort`
with a consistent comparator). -/
def sortBy (lt : α → α → Bool) (l : List α) : List α :=
  l.foldr (insertBy lt) []

/-- Strict precedence for the comparator `(a, b) => b[f] - a[f]`
(descending by the numeric field `f`); a `NaN` comparison imposes no
reordering. -/
def rowBefore (f : String) (a b : Row) : Bool :=
  match jsNumberV (rowGet b f), jsNumberV (rowGet a f) with
  | some qb, some qa => decide (qb < qa)
  | _, _ => false

/-! ### `aggregateData` (QueryPlayground.jsx lines 78-167) -/

/-- `item.Outcome === 1 || item.Outcome === '1'`. -/
def outcomeIsPos (item : Row) : Bool :=
  rowGet item "Outcome" == JVal.num 1 || rowGet item "Outcome" == JVal.str "1"

/-- The Outcome special case: two fixed category rows whose counts are the
two branch tallies of the `forEach`. -/
def outcomeRows (data : List Row) : List Row :=
  [ mkRow [("category", JVal.str "Positive (1)"),
           ("count", JVal.num (data.countP (fun i => outcomeIsPos i) : ℕ))],
    mkRow [("category", JVal.str "Negative (0)"),
           ("count", JVal.num (data.countP (fun i => !outcomeIsPos i) : ℕ))] ]

/-- Which of the five age buckets `Number(item.Age)` falls into; all the
`<` comparisons are false on `NaN`, so `NaN` lands in the final bucket. -/
def ageIndex (item : Row) : ℕ :=
  match jsNumberV (rowGet item "Age") with
  | none => 4
  | some q =>
      if q < 30 then 0 else if q < 40 then 1
      else if q < 50 then 2 else if q < 60 then 3 else 4

/-- The Age special case: the five fixed age-range rows, in the insertion
order of the `ageRanges` object literal. -/
def ageRows (data : List Row) : List Row :=
  [ mkRow [("category", JVal.str "20-29"),
           ("count", JVal.num (data.countP (fun i => ageIndex i == 0) : ℕ))],
    mkRow [("category", JVal.str "30-39"),
           ("count", JVal.num (data.countP (fun i => ageIndex i == 1) : ℕ))],
    mkRow [("category", JVal.str "40-49"),
           ("count", JVal.num (data.countP (fun i => ageIndex i == 2) : ℕ))],
    mkRow [("category", JVal.str "50-59"),
           ("count", JVal.num (data.countP (fun i => ageIndex i == 3) : ℕ))],
    mkRow [("category", JVal.str "60+"),
           ("count", JVal.num (data.countP (fun i => ageIndex i == 4) : ℕ))] ]

/-- Numeric fields of the first row:
`typeof firstItem[key] === 'number' || !isNaN(Number(firstItem[key]))`. -/
def numericFieldsOf (firstItem : Row) : List String :=
  (rowKeys firstItem).filter
    (fun k => typeofNum (rowGet firstItem k) || (jsNumberV (rowGet firstItem k)).isSome)

/-- Category fields of the first row:
`typeof firstItem[key] === 'string' && !numericFields.includes(key)`. -/
def categoryFieldsOf (firstItem : Row) (numericFields : List String) : List String :=
  (rowKeys firstItem).filter
    (fun k => typeofStr (rowGet firstItem k) && !(numericFields.contains k))

/-- The fresh group object
`{ [categoryField]: category, [numericField]: 0, count: 0 }`. -/
def groupInit (cf nf : String) (item : Row) : Row :=
  mkRow [(cf, rowGet item cf), (nf, JVal.num 0), ("count", JVal.num 0)]

/-- The two per-item updates
`aggregated[category][numericField] += Number(item[numericField])` and
`aggregated[category].count += 1`. -/
def groupUpdate (nf : String) (item : Row) (r : Row) : Row :=
  let r1 := rowSet r nf (jsAddNum (rowGet r nf) (jsNumberV (rowGet item nf)))
  rowSet r1 "count" (jsAddNum (rowGet r1 "count") (some 1))

/-- In-place update of the entry at string key `k` of a JS object modelled
as an insertion-ordered association list. -/
def updateAssoc : List (String × Row) → String → (Row → Row) → List (String × Row)
  | [], _, _ => []
  | (k', r) :: rest, k, f =>
      if k' = k then (k', f r) :: rest else (k', r) :: updateAssoc rest k f

/-- One iteration of the grouping `forEach`: create the group object on
first sight of the (stringified) category value, then apply the updates. -/
def groupStep (cf nf : String) (acc : List (String × Row)) (item : Row) :
    List (String × Row) :=
  updateAssoc
    (if acc.any (fun p => p.1 == jsToString (rowGet item cf)) then acc
     else acc ++ [(jsToString (rowGet item cf), groupInit cf nf item)])
    (jsToString (rowGet item cf)) (groupUpdate nf item)

/-- The categorical+numeric branch: group, take `Object.values`, sort
descending by the numeric field, `slice(0, maxEntries)`. -/
def categoricalRows (cf nf : String) (data : List Row) (maxEntries : ℕ) : List Row :=
  let groups := (data.foldl (groupStep cf nf) []).map Prod.snd
  (sortBy (rowBefore nf) groups).take maxEntries

/-- `data.reduce((acc, item) => acc + Number(item[field] || 0), 0)`;
`none` is `NaN`. -/
def fieldSum (f : String) (data : List Row) : Option ℚ :=
  data.foldl
    (fun acc item =>
      match acc, jsNumberV (if jsTruthy (rowGet item f) then rowGet item f else JVal.num 0) with
      | some a, some b => some (a + b)
      | _, _ => none)
    (some 0)

/-- `parseFloat(avg.toFixed(2))`, modelled as rounding to two decimal
places (half away from zero). -/
def round2 (q : ℚ) : ℚ :=
  if 0 ≤ q then (⌊q * 100 + 1 / 2⌋ : ℚ) / 100
  else -((⌊-q * 100 + 1 / 2⌋ : ℚ) / 100)

/-- The numeric-only branch: one `{metric, average, count}` row per
numeric field. -/
def numericOnlyRows (numericFields : List String) (data : List Row) : List Row :=
  numericFields.map (fun f =>
    let avg : JVal :=
      match fieldSum f data with
      | some s => JVal.num (round2 (s / (data.length : ℚ)))
      | none => JVal.nan
    mkRow [("metric", JVal.str f), ("average", avg),
           ("count", JVal.num (data.length : ℕ))])

/-- The body of `aggregateData` past the early return (`data` is known
non-empty there, since its length exceeds `maxEntries`); `data.headD []`
is `data[0]`. -/
def aggregateLarge (data : List Row) (maxEntries : ℕ) : List Row :=
  if (rowKeys (data.headD [])).contains "Outcome" then outcomeRows data
  else if (rowKeys (data.headD [])).contains "Age" then ageRows data
  else if !(numericFieldsOf (data.headD [])).isEmpty &&
          !(categoryFieldsOf (data.headD []) (numericFieldsOf (data.headD []))).isEmpty then
    categoricalRows
      ((categoryFieldsOf (data.headD []) (numericFieldsOf (data.headD []))).headD "")
      ((numericFieldsOf (data.headD [])).headD "") data maxEntries
  else if !(numericFieldsOf (data.headD [])).isEmpty then
    numericOnlyRows (numericFieldsOf (data.headD [])) data
  else
    data.take maxEntries

/-- `aggregateData` on a non-null table. -/
def aggregateDataCore (data : List Row) (maxEntries : ℕ) : List Row :=
  if data.length ≤ maxEntries then data else aggregateLarge data maxEntries

/-- `aggregateData` with the `!data` guard (`null` argument returns
`null`). -/
def aggregateData (data : Option (List Row)) (maxEntries : ℕ) : Option (List Row) :=
  match data with
  | none => none
  | some l => some (aggregateDataCore l maxEntries)

/-- All column names occurring in any row of a table. -/
def allKeys (data : List Row) : List String := (data.map rowKeys).flatten

/-! ### A store-passing embedding of `aggregateData`

`aggregateData` is also embedded against an explicit object store, to
reason about mutation: row objects live in a heap addressed by allocation
order, the input table is a list of addresses, every object creation is an
`halloc` and every property assignment of the source an `hwrite`.  The
structure of each branch mirrors the pure embedding above. -/

/-- The object store: rows addressed by allocation index. -/
structure Heap where
  rows : List Row

/-- Allocate a fresh row object, returning its address. -/
def halloc (h : Heap) (r : Row) : Heap × ℕ :=
  (⟨h.rows ++ [r]⟩, h.rows.length)

/-- Dereference an address. -/
def hread (h : Heap) (a : ℕ) : Row := h.rows.getD a []

/-- Overwrite the object at an address. -/
def hwrite (h : Heap) (a : ℕ) (r : Row) : Heap := ⟨h.rows.set a r⟩

/-- `obj.count++` / `obj.count += 1`. -/
def bumpCount (r : Row) : Row :=
  rowSet r "count" (jsAddNum (rowGet r "count") (some 1))

/-- The Outcome branch `forEach`: each input row increments the counter of
one of the two freshly allocated category objects. -/
def outcomeFoldH (a0 a1 : ℕ) (h : Heap) (addrs : List ℕ) : Heap :=
  addrs.foldl
    (fun h a =>
      if outcomeIsPos (hread h a) then hwrite h a0 (bumpCount (hread h a0))
      else hwrite h a1 (bumpCount (hread h a1)))
    h

/-- The Outcome branch: allocate the two category objects, run the
`forEach`, return their addresses. -/
def outcomeH (h : Heap) (addrs : List ℕ) : Heap × List ℕ :=
  let p0 := halloc h (mkRow [("category", JVal.str "Positive (1)"), ("count", JVal.num 0)])
  let p1 := halloc p0.1 (mkRow [("category", JVal.str "Negative (0)"), ("count", JVal.num 0)])
  (outcomeFoldH p0.2 p1.2 p1.1 addrs, [p0.2, p1.2])

/-- The five age-range labels, in the insertion order of `ageRanges`. -/
def ageLabels : List String := ["20-29", "30-39", "40-49", "50-59", "60+"]

/-- Allocation of the five `ageRanges` objects. -/
def ageAllocH (h : Heap) : Heap × List ℕ :=
  ageLabels.foldl
    (fun st lab =>
      let p := halloc st.1 (mkRow [("category", JVal.str lab), ("count", JVal.num 0)])
      (p.1, st.2 ++ [p.2]))
    (h, [])

/-- The Age branch `forEach`: bump the bucket object selected by
`Number(item.Age)`. -/
def ageFoldH (bs : List ℕ) (h : Heap) (addrs : List ℕ) : Heap :=
  addrs.foldl
    (fun h a =>
      let b := bs.getD (ageIndex (hread h a)) 0
      hwrite h b (bumpCount (hread h b)))
    h

/-- The Age branch. -/
def ageH (h : Heap) (addrs : List ℕ) : Heap × List ℕ :=
  let p := ageAllocH h
  (ageFoldH p.2 p.1 addrs, p.2)

/-- First half of a grouping iteration against the store: allocate the
group object on first sight of the category key
(`if (!aggregated[category]) { aggregated[category] = {...} }`). -/
def groupAlloc (cf nf key : String) (st : Heap × List (String × ℕ)) (item : Row) :
    Heap × List (String × ℕ) :=
  if st.2.any (fun p => p.1 == key) then st
  else ((halloc st.1 (groupInit cf nf item)).1,
        st.2 ++ [(key, (halloc st.1 (groupInit cf nf item)).2)])

/-- The address `aggregated[category]` refers to. -/
def groupAddr (key : String) (assoc : List (String × ℕ)) : ℕ :=
  ((assoc.find? (fun p => p.1 == key)).map Prod.snd).getD 0

/-- One iteration of the grouping `forEach` against the store: allocate
the group object on first sight of the category key, then write back the
two property updates. -/
def groupStepH (cf nf : String) (st : Heap × List (String × ℕ)) (a : ℕ) :
    Heap × List (String × ℕ) :=
  (hwrite
     (groupAlloc cf nf (jsToString (rowGet (hread st.1 a) cf)) st (hread st.1 a)).1
     (groupAddr (jsToString (rowGet (hread st.1 a) cf))
       (groupAlloc cf nf (jsToString (rowGet (hread st.1 a) cf)) st (hread st.1 a)).2)
     (groupUpdate nf (hread st.1 a)
       (hread (groupAlloc cf nf (jsToString (rowGet (hread st.1 a) cf)) st (hread st.1 a)).1
         (groupAddr (jsToString (rowGet (hread st.1 a) cf))
           (groupAlloc cf nf (jsToString (rowGet (hread st.1 a) cf)) st (hread st.1 a)).2))),
   (groupAlloc cf nf (jsToString (rowGet (hread st.1 a) cf)) st (hread st.1 a)).2)

/-- The categorical branch against the store: group, sort the collected
object references by their current numeric field, truncate. -/
def categoricalH (cf nf : String) (h : Heap) (addrs : List ℕ) (m : ℕ) :
    Heap × List ℕ :=
  let st := addrs.foldl (groupStepH cf nf) (h, [])
  (st.1,
   (sortBy (fun x y => rowBefore nf (hread st.1 x) (hread st.1 y)) (st.2.map Prod.snd)).take m)

/-- The numeric-only branch against the store: push one freshly allocated
`{metric, average, count}` object per numeric field. -/
def numericOnlyH (nfs : List String) (h : Heap) (addrs : List ℕ) : Heap × List ℕ :=
  nfs.foldl
    (fun st f =>
      let vals := addrs.map (hread st.1)
      let avg : JVal :=
        match fieldSum f vals with
        | some s => JVal.num (round2 (s / (vals.length : ℚ)))
        | none => JVal.nan
      let p := halloc st.1
        (mkRow [("metric", JVal.str f), ("average", avg), ("count", JVal.num (vals.length : ℕ))])
      (p.1, st.2 ++ [p.2]))
    (h, [])

/-- `aggregateData` against the store. -/
def aggregateDataH (h : Heap) (addrs : List ℕ) (m : ℕ) : Heap × List ℕ :=
  if addrs.length ≤ m then (h, addrs)
  else if (rowKeys (hread h (addrs.headD 0))).contains "Outcome" then outcomeH h addrs
  else if (rowKeys (hread h (addrs.headD 0))).contains "Age" then ageH h addrs
  else if !(numericFieldsOf (hread h (addrs.headD 0))).isEmpty &&
          !(categoryFieldsOf (hread h (addrs.headD 0))
              (numericFieldsOf (hread h (addrs.headD 0)))).isEmpty then
    categoricalH
      ((categoryFieldsOf (hread h (addrs.headD 0))
          (numericFieldsOf (hread h (addrs.headD 0)))).headD "")
      ((numericFieldsOf (hread h (addrs.headD 0))).headD "") h addrs m
  else if !(numericFieldsOf (hread h (addrs.headD 0))).isEmpty then
    numericOnlyH (numericFieldsOf (hread h (addrs.headD 0))) h addrs
  else (h, addrs.take m)

/-- Heap `h'` extends `h` without touching the first `n` objects. -/
def FrameOn (n : ℕ) (h h' : Heap) : Prop :=
  n ≤ h'.rows.length ∧ ∀ a, a < n → hread h' a = hread h a

/-! ### `handleQuerySubmit` (backend-integrated QueryPlayground variant) -/

/-- The `/process-data/` response consumed by `handleQuerySubmit`
(`processed_data`, optional `insights`, optional `suggested_visualization`,
optional auxiliary `charts`, each chart a `{title, type, data}` triple). -/
structure ProcessResult where
  processed_data : List Row
  insights : Option (List String)
  suggested_visualization : Option String
  charts : Option (List (String × String × List Row))
  deriving DecidableEq

/-- Observable outcome of one `handleQuerySubmit` run: the error state it
sets, the `(data, query, chartType)` arguments handed to
`generateChartCode` (none when generation is not reached), and the
insights / additional-charts state it sets (none when left untouched). -/
structure SubmitOutcome where
  error : Option String
  generateArgs : Option (List Row × String × String)
  insightsSet : Option (List String)
  additionalCharts : Option (List (String × String × List Row))
  deriving DecidableEq

/-- `handleQuerySubmit` as a function of the component state and of the
outcome of the backend call `processQuery(userData, userQuery, dataLimit)`
(`Except.error` models the promise rejecting).  `serverStatus` is the JS
truthiness of the nullable status flag, and an `Option` field stands for
the JS truthiness test on the corresponding response field. -/
def handleQuerySubmit (userQuery : String) (userData : Option (List Row))
    (geminiKeyValid : Bool) (serverStatus : Bool) (selectedChartType : String)
    (backend : Except String ProcessResult) : SubmitOutcome :=
  if jsTrim userQuery = "" ∨ userData = none then
    { error := some "Please enter a query and upload data first.",
      generateArgs := none, insightsSet := none, additionalCharts := none }
  else if !geminiKeyValid then
    { error := some "Gemini API key is not set. Please add your API key to .env.local file.",
      generateArgs := none, insightsSet := none, additionalCharts := none }
  else if serverStatus then
    match backend with
    | Except.ok result =>
        { error := none,
          generateArgs := some (result.processed_data, userQuery,
            result.suggested_visualization.getD selectedChartType),
          insightsSet := some (result.insights.getD []),
          additionalCharts := result.charts }
    | Except.error _ =>
        -- the catch block: fall back to the original data and continue
        { error := none,
          generateArgs := some (userData.getD [], userQuery, selectedChartType),
          insightsSet := none, additionalCharts := none }
  else
    { error := none,
      generateArgs := some (userData.getD [], userQuery, selectedChartType),
      insightsSet := some
        ["Backend server is not available. Using original data without processing."],
      additionalCharts := none }

/-! ### `DataUploader`: `parseCSV` and both `handleFileUpload` variants -/

/-- `String.prototype.split` on a single separator character, written
structurally (always returns at least one group, like JS). -/
def splitChar (sep : Char) : List Char → List (List Char)
  | [] => [[]]
  | c :: rest =>
      match splitChar sep rest with
      | [] => [[]]
      | g :: gs => if c = sep then [] :: g :: gs else (c :: g) :: gs

/-- `lines[0].split(',').map(h => h.trim())`. -/
def csvHeaders (text : String) : List String :=
  (splitChar ',' ((splitChar '\n' text.data).headD [])).map
    (fun cs => String.mk (trimChars cs))

/-- `isNaN(value) ? value : Number(value)` for a present cell. -/
def csvCell (s : String) : JVal :=
  match strToNumber s with
  | some q => JVal.num q
  | none => JVal.str s

/-- `headers.forEach((header, index) => entry[header] = ...)`: a missing
value (`values[index] === undefined`) is stored as `undefined`, so the key
still exists. -/
def csvRowGo (values : List String) : Row → ℕ → List String → Row
  | e, _, [] => e
  | e, i, hd :: rest =>
      csvRowGo values
        (rowSet e hd
          (match values[i]? with
           | none => JVal.undef
           | some s => csvCell s))
        (i + 1) rest

/-- One parsed CSV row. -/
def csvRow (headers values : List String) : Row := csvRowGo values [] 0 headers

/-- `parseCSV`: split into lines, read headers from the first line, skip
blank data lines, build one row per remaining line. -/
def parseCSV (text : String) : List Row :=
  (((splitChar '\n' text.data).drop 1).filter
      (fun l => String.mk (trimChars l) ≠ "")).map
    (fun l => csvRow (csvHeaders text)
      ((splitChar ',' l).map (fun cs => String.mk (trimChars cs))))

/-- `file.name.endsWith(suffix)`. -/
def endsWithStr (s suffix : String) : Bool := suffix.data.isSuffixOf s.data

/-- The uploader's unsupported-format message (identical in both
variants). -/
def unsupportedMsg : String := "Unsupported file format. Please upload a CSV or JSON file."

/-- Observable outcome of the local-parse uploader: the data handed to
`onDataUpload` (none when it is not called) and the error/success state. -/
structure UploadOutcome where
  uploaded : Option (List Row)
  error : Option String
  success : Option String
  deriving DecidableEq

/-- The local-parse `handleFileUpload`, as a function of the file name, the
`FileReader` outcome (`Except.error` = `reader.onerror`) and — for `.json`
names only — the outcome of the platform call `JSON.parse` (`Except.error`
models the exception caught by the surrounding `try`). -/
def handleFileUploadLocal (fileName : String) (readOutcome : Except Unit String)
    (jsonOutcome : Except Unit (List Row)) : UploadOutcome :=
  match readOutcome with
  | Except.error _ =>
      { uploaded := none, error := some "Error reading file", success := none }
  | Except.ok text =>
      if endsWithStr fileName ".csv" then
        { uploaded := some (parseCSV text), error := none,
          success := some ("Successfully loaded " ++ fileName) }
      else if endsWithStr fileName ".json" then
        match jsonOutcome with
        | Except.ok d =>
            { uploaded := some d, error := none,
              success := some ("Successfully loaded " ++ fileName) }
        | Except.error _ =>
            { uploaded := none,
              error := some "Failed to parse the file. Please check the format.",
              success := none }
      else
        { uploaded := none, error := some unsupportedMsg, success := none }

/-- Observable outcome of the backend uploader (`onDataUpload` receives
`(result.data, result.summary)`; the summary is an opaque value here). -/
structure UploadOutcomeB where
  uploaded : Option (List Row × JVal)
  error : Option String
  success : Option String
  deriving DecidableEq

/-- The backend-upload `handleFileUpload`, as a function of the file name,
the nullable server-status flag and the outcomes of the two backend calls
`uploadCSV` / `uploadJSON` (`Except.error msg` models a rejection whose
`err.message` is `msg`; the catch block surfaces
`err.message || 'Failed to upload file'`). -/
def handleFileUploadBackend (fileName : String) (serverStatus : Option Bool)
    (csvOutcome jsonOutcome : Except String (List Row × JVal)) : UploadOutcomeB :=
  if serverStatus = some false then
    { uploaded := none,
      error := some "Backend server is not running. Please start the server and try again.",
      success := none }
  else if endsWithStr fileName ".csv" then
    match csvOutcome with
    | Except.ok r =>
        { uploaded := some r, error := none,
          success := some ("Successfully loaded " ++ fileName) }
    | Except.error msg =>
        { uploaded := none,
          error := some (if msg = "" then "Failed to upload file" else msg),
          success := none }
  else if endsWithStr fileName ".json" then
    match jsonOutcome with
    | Except.ok r =>
        { uploaded := some r, error := none,
          success := some ("Successfully loaded " ++ fileName) }
    | Except.error msg =>
        { uploaded := none,
          error := some (if msg = "" then "Failed to upload file" else msg),
          success := none }
  else
    { uploaded := none, error := some unsupportedMsg, success := none }

/-! ### `checkServerStatus` (src/services/api.js) -/

/-- Outcome of the health-check `fetch`: the promise resolves with a
response (carrying `response.ok`) or rejects. -/
inductive FetchOutcome where
  | resolved (ok : Bool)
  | rejected
  deriving DecidableEq

/-- `checkServerStatus`: `return response.ok` inside the `try`; the `catch`
returns `false`. -/
def checkServerStatus : FetchOutcome → Bool
  | FetchOutcome.resolved ok => ok
  | FetchOutcome.rejected => false

/-! ### `cleanGeneratedCode` (QueryPlayground.jsx lines 311-387)

Each regular expression of the source is hand-compiled to a matcher over
character lists.  A matcher returns, for a match starting at the head of
its input, the replacement text together with the input after the match;
`replaceAll` scans left to right (the `g`-flag semantics), `findFirst`
returns the leftmost match (the plain-`match` semantics).  All the
patterns involved match at least one character, so maximal munch on `\w+`,
`\s*` and `[^)]*` is exact (each is always followed by a literal outside
its own character class). -/

/-- `String.prototype.includes`, structurally: the pattern is a prefix of
some suffix. -/
def containsSub (pat : List Char) : List Char → Bool
  | [] => pat.isEmpty
  | c :: cs => pat.isPrefixOf (c :: cs) || containsSub pat cs

/-- JS `\w`. -/
def isWordChar (c : Char) : Bool := c.isAlpha || c.isDigit || c == '_'

/-- Consume a literal. -/
def dropLit (lit : String) (cs : List Char) : Option (List Char) :=
  if lit.data.isPrefixOf cs then some (cs.drop lit.length) else none

/-- Consume a literal given as characters. -/
def litPrefix (lit : List Char) (cs : List Char) : Option (List Char) :=
  if lit.isPrefixOf cs then some (cs.drop lit.length) else none

/-- `\s*`. -/
def munchWs (cs : List Char) : List Char := cs.dropWhile Char.isWhitespace

/-- `\s+`. -/
def munchWs1 : List Char → Option (List Char)
  | [] => none
  | c :: rest => if c.isWhitespace then some (munchWs rest) else none

/-- `(\w+)`: the captured word and the rest. -/
def munchWord1 (cs : List Char) : Option (List Char × List Char) :=
  if (cs.takeWhile isWordChar).isEmpty then none
  else some (cs.takeWhile isWordChar, cs.dropWhile isWordChar)

/-- Left-to-right scan replacing every match (fuel is the input length;
every pattern used consumes at least one character, so it suffices). -/
def replaceScan (m : List Char → Option (List Char × List Char)) :
    ℕ → List Char → List Char
  | 0, cs => cs
  | _ + 1, [] => []
  | fuel + 1, c :: cs =>
      match m (c :: cs) with
      | some (rep, rest) => rep ++ replaceScan m fuel rest
      | none => c :: replaceScan m fuel cs

/-- `String.prototype.replace` with the `g` flag. -/
def replaceAll (m : List Char → Option (List Char × List Char)) (cs : List Char) :
    List Char :=
  replaceScan m cs.length cs

/-- Whether the pattern matches at any position. -/
def hasMatchO {α : Type} (m : List Char → Option α) : List Char → Bool
  | [] => false
  | c :: cs => (m (c :: cs)).isSome || hasMatchO m cs

/-- The leftmost match (`String.prototype.match` without `g`). -/
def findFirst {α : Type} (m : List Char → Option α) : List Char → Option α
  | [] => none
  | c :: cs =>
      match m (c :: cs) with
      | some x => some x
      | none => findFirst m cs

/-- Excise the leftmost match (`.replace(firstMatch, '')`); the matcher
returns the input after the matched text. -/
def removeFirst (m : List Char → Option (List Char)) : ℕ → List Char → List Char
  | 0, cs => cs
  | _ + 1, [] => []
  | fuel + 1, c :: cs =>
      match m (c :: cs) with
      | some rest => rest
      | none => c :: removeFirst m fuel cs

/-- ```` /```jsx|```js|```javascript|```/g ```` removal, trying the
alternatives in the regex's order at each position. -/
def stripFencesGo : ℕ → List Char → List Char
  | 0, cs => cs
  | _ + 1, [] => []
  | fuel + 1, c :: cs =>
      if "```jsx".data.isPrefixOf (c :: cs) then stripFencesGo fuel ((c :: cs).drop 6)
      else if "```js".data.isPrefixOf (c :: cs) then stripFencesGo fuel ((c :: cs).drop 5)
      else if "```javascript".data.isPrefixOf (c :: cs) then
        stripFencesGo fuel ((c :: cs).drop 13)
      else if "```".data.isPrefixOf (c :: cs) then stripFencesGo fuel ((c :: cs).drop 3)
      else c :: stripFencesGo fuel cs

/-- `/module\.exports\s*=\s*/`. -/
def moduleExportsMatch (cs : List Char) : Option (List Char × List Char) := do
  let r1 ← dropLit "module.exports" cs
  let r2 ← dropLit "=" (munchWs r1)
  some ([], munchWs r2)

/-- `/export\s+default\s+(\w+)/`: the captured component name. -/
def exportDefaultNameAt (cs : List Char) : Option (List Char) := do
  let r1 ← dropLit "export" cs
  let r2 ← munchWs1 r1
  let r3 ← dropLit "default" r2
  let r4 ← munchWs1 r3
  let p ← munchWord1 r4
  some p.1

/-- `/export\s+default\s+\w+;?/g` removal. -/
def exportDefaultRemoveMatch (cs : List Char) : Option (List Char × List Char) := do
  let r1 ← dropLit "export" cs
  let r2 ← munchWs1 r1
  let r3 ← dropLit "default" r2
  let r4 ← munchWs1 r3
  let p ← munchWord1 r4
  some ([], match p.2 with | ';' :: t => t | r => r)

/-- `/export\s+default\s+/g` removal (the no-name fallback in the
render-ensuring step). -/
def exportDefaultBareMatch (cs : List Char) : Option (List Char × List Char) := do
  let r1 ← dropLit "export" cs
  let r2 ← munchWs1 r1
  let r3 ← dropLit "default" r2
  let r4 ← munchWs1 r3
  some ([], r4)

/-- `/render\s*\(\s*<\s*(\w+)/g` rewritten to `render(<NAME`. -/
def renderOpenMatch (name : List Char) (cs : List Char) :
    Option (List Char × List Char) := do
  let r1 ← dropLit "render" cs
  let r2 ← dropLit "(" (munchWs r1)
  let r3 ← dropLit "<" (munchWs r2)
  let p ← munchWord1 (munchWs r3)
  some ("render(<".data ++ name, p.2)

/-- `/\w+\.render\(\);?/g` removal. -/
def dotRenderMatch (cs : List Char) : Option (List Char × List Char) := do
  let p ← munchWord1 cs
  let r2 ← dropLit ".render()" p.2
  some ([], match r2 with | ';' :: t => t | r => r)

/-- The render-vs-export-default reconciliation step. -/
def handleExportDefault (cs : List Char) : List Char :=
  if containsSub "render(".data cs && containsSub "export default".data cs then
    match findFirst exportDefaultNameAt cs with
    | some name =>
        if containsSub ("render(<".data ++ name) (replaceAll exportDefaultRemoveMatch cs) then
          replaceAll exportDefaultRemoveMatch cs
        else replaceAll (renderOpenMatch name) (replaceAll exportDefaultRemoveMatch cs)
    | none => replaceAll exportDefaultRemoveMatch cs
  else cs

/-- `/(?:function|const|class)\s+(\w+)/`: the detected component name. -/
def funcConstClassNameAt (cs : List Char) : Option (List Char) := do
  let r1 ← dropLit "function" cs <|> dropLit "const" cs <|> dropLit "class" cs
  let r2 ← munchWs1 r1
  let p ← munchWord1 r2
  some p.1

/-- The render call appended for react-live. -/
def renderCallFor (name : List Char) : List Char :=
  "\n\n// Add render call for react-live\nrender(<".data ++ name ++
    " data={data} />);".data

/-- The render-ensuring step: if no `render(` call is present, append one
for the exported (or detected, defaulting to `Chart`) component. -/
def ensureRenderCall (cs : List Char) : List Char :=
  if containsSub "render(".data cs then cs
  else if containsSub "export default".data cs then
    match findFirst exportDefaultNameAt cs with
    | some exportedName =>
        replaceAll exportDefaultRemoveMatch cs ++ renderCallFor exportedName
    | none =>
        replaceAll exportDefaultBareMatch cs ++
          renderCallFor ((findFirst funcConstClassNameAt cs).getD "Chart".data)
  else cs ++ renderCallFor ((findFirst funcConstClassNameAt cs).getD "Chart".data)

/-- Advance past the first occurrence of a substring (the lazy
`[\s\S]*?` up to the literal that follows it). -/
def dropThroughSub (pat : List Char) : List Char → Option (List Char)
  | [] => none
  | c :: cs =>
      if pat.isPrefixOf (c :: cs) then some ((c :: cs).drop pat.length)
      else dropThroughSub pat cs

/-- `/const\s+data\s*=\s*\[[\s\S]*?\];/`: the hardcoded-data-array match,
returning the input after the matched text. -/
def dataArrayMatchAt (cs : List Char) : Option (List Char) := do
  let r1 ← dropLit "const" cs
  let r2 ← munchWs1 r1
  let r3 ← dropLit "data" r2
  let r4 ← dropLit "=" (munchWs r3)
  let r5 ← dropLit "[" (munchWs r4)
  dropThroughSub "];".data r5

/-- `/document\.getElementById\([^)]*\)/g` replaced by `null`. -/
def getElementByIdMatch (cs : List Char) : Option (List Char × List Char) := do
  let r1 ← dropLit "document.getElementById(" cs
  let r2 ← dropLit ")" (r1.dropWhile (fun c => c != ')'))
  some ("null".data, r2)

/-- `/(?:function|const)\s+(\w+)\s*\(\s*\)/`: a zero-argument component
declaration, returning the component name. -/
def zeroArgComponentAt (cs : List Char) : Option (List Char) := do
  let r1 ← dropLit "function" cs <|> dropLit "const" cs
  let r2 ← munchWs1 r1
  let p ← munchWord1 r2
  let r4 ← dropLit "(" (munchWs p.2)
  let _ ← dropLit ")" (munchWs r4)
  some p.1

/-- The dynamically built `(function|const)\s+NAME\s*\(\s*\)` regex,
replaced by `$1 NAME ({ data })`. -/
def zeroArgRewriteMatch (name : List Char) (cs : List Char) :
    Option (List Char × List Char) := do
  let g ← (dropLit "function" cs).map (fun r => ("function".data, r)) <|>
          (dropLit "const" cs).map (fun r => ("const".data, r))
  let r2 ← munchWs1 g.2
  let r3 ← litPrefix name r2
  let r4 ← dropLit "(" (munchWs r3)
  let r5 ← dropLit ")" (munchWs r4)
  some (g.1 ++ " ".data ++ name ++ " ({ data })".data, r5)

/-- `cleanGeneratedCode` up to and including the render-ensuring step
(fence stripping, trim, `module.exports` removal, export-default
reconciliation, `.render()`-call removal, render-call append). -/
def cleanThroughRender (code : String) : List Char :=
  ensureRenderCall
    (replaceAll dotRenderMatch
      (handleExportDefault
        (replaceAll moduleExportsMatch
          (trimChars (stripFencesGo code.data.length code.data)))))

/-- The last three cleanup steps: hardcoded-data-array removal,
`getElementById` neutralisation, zero-argument component rewrite. -/
def cleanAfterRender (cs : List Char) : List Char :=
  match findFirst zeroArgComponentAt
      (replaceAll getElementByIdMatch (removeFirst dataArrayMatchAt cs.length cs)) with
  | some name =>
      replaceAll (zeroArgRewriteMatch name)
        (replaceAll getElementByIdMatch (removeFirst dataArrayMatchAt cs.length cs))
  | none => replaceAll getElementByIdMatch (removeFirst dataArrayMatchAt cs.length cs)

/-- `cleanGeneratedCode`. -/
def cleanGeneratedCode (code : String) : String :=
  String.mk (cleanAfterRender (cleanThroughRender code))

/-! ### Concrete tables used by the claim theorems -/

/-- Two Outcome rows: above any budget `maxEntries = 1`, yet the Outcome
special case always answers with its two fixed category rows. -/
def c1cexData : List Row := [[("Outcome", JVal.num 1)], [("Outcome", JVal.num 0)]]

/-- The spec's worked example table. -/
def c2exData : List Row :=
  [[("category", JVal.str "A"), ("value", JVal.num 10)],
   [("category", JVal.str "B"), ("value", JVal.num 20)],
   [("category", JVal.str "A"), ("value", JVal.num 5)]]

/-- A numeric-only table (two numeric columns, no categorical column). -/
def c3cexData : List Row :=
  [[("a", JVal.num 1), ("b", JVal.num 2)], [("a", JVal.num 3), ("b", JVal.num 4)]]

/-- The Outcome table again, for the idempotence counterexample. -/
def c4cexData : List Row := [[("Outcome", JVal.num 1)], [("Outcome", JVal.num 0)]]

/-- A six-row Outcome table: large enough to be reduced at budget 5. -/
def c4witData : List Row :=
  [[("Outcome", JVal.num 1)], [("Outcome", JVal.num 0)], [("Outcome", JVal.num 1)],
   [("Outcome", JVal.num 0)], [("Outcome", JVal.num 1)], [("Outcome", JVal.num 0)]]

/-- A small uploaded table, for the query-handler witness. -/
def c6witData : List Row := [[("name", JVal.str "North"), ("value", JVal.num 4000)]]

/-! ### List lemmas for the reducer -/

theorem length_insertBy (lt : α → α → Bool) (x : α) (l : List α) :
    (insertBy lt x l).length = l.length + 1 := by
  induction l with
  | nil => rfl
  | cons y ys ih => simp only [insertBy]; split <;> simp [ih]

theorem length_sortBy (lt : α → α → Bool) (l : List α) :
    (sortBy lt l).length = l.length := by
  induction l with
  | nil => rfl
  | cons y ys ih =>
      simp only [sortBy, List.foldr_cons] at ih ⊢
      rw [length_insertBy, ih]; rfl

theorem mem_insertBy (lt : α → α → Bool) (x a : α) (l : List α) :
    a ∈ insertBy lt x l ↔ a = x ∨ a ∈ l := by
  induction l with
  | nil => simp [insertBy]
  | cons y ys ih => simp only [insertBy]; split <;> simp [ih] <;> tauto

theorem mem_sortBy (lt : α → α → Bool) (a : α) (l : List α) :
    a ∈ sortBy lt l ↔ a ∈ l := by
  induction l with
  | nil => simp [sortBy]
  | cons y ys ih =>
      simp only [sortBy, List.foldr_cons] at ih ⊢
      simp [mem_insertBy, ih]

theorem headD_mem_of_ne_nil {l : List α} (h : l ≠ []) (d : α) : l.headD d ∈ l := by
  cases l with
  | nil => exact absurd rfl h
  | cons a t => simp

theorem numericFieldsOf_subset (f : Row) : numericFieldsOf f ⊆ rowKeys f := by
  intro a ha
  exact List.mem_of_mem_filter ha

theorem categoryFieldsOf_subset (f : Row) (nfs : List String) :
    categoryFieldsOf f nfs ⊆ rowKeys f := by
  intro a ha
  exact List.mem_of_mem_filter ha

theorem mem_rowKeys_rowSet (r : Row) (a : String) (v : JVal) (k : String) :
    k ∈ rowKeys (rowSet r a v) ↔ k = a ∨ k ∈ rowKeys r := by
  induction r with
  | nil => simp [rowSet, rowKeys]
  | cons p rest ih =>
      obtain ⟨k', v'⟩ := p
      simp only [rowSet]
      split
      · next h => subst h; simp [rowKeys]
      · simp [rowKeys] at ih ⊢; tauto

theorem mem_rowKeys_setFold (ps : List (String × JVal)) (r0 : Row) (k : String)
    (h : k ∈ rowKeys (ps.foldl (fun r p => rowSet r p.1 p.2) r0)) :
    k ∈ rowKeys r0 ∨ k ∈ ps.map Prod.fst := by
  induction ps generalizing r0 with
  | nil => exact Or.inl h
  | cons p rest ih =>
      simp only [List.foldl_cons] at h
      rcases ih _ h with h' | h'
      · rcases (mem_rowKeys_rowSet _ _ _ _).1 h' with h'' | h''
        · right; simp [h'']
        · exact Or.inl h''
      · right; simp [h']

theorem mem_rowKeys_mkRow (ps : List (String × JVal)) (k : String)
    (h : k ∈ rowKeys (mkRow ps)) : k ∈ ps.map Prod.fst := by
  have := mem_rowKeys_setFold ps [] k h
  simpa [rowKeys] using this

/-- Keys appearing in a row after the two grouping updates. -/
theorem mem_rowKeys_groupUpdate (nf : String) (item r : Row) (k : String)
    (h : k ∈ rowKeys (groupUpdate nf item r)) :
    k = nf ∨ k = "count" ∨ k ∈ rowKeys r := by
  unfold groupUpdate at h
  rcases (mem_rowKeys_rowSet _ _ _ _).1 h with h' | h'
  · tauto
  · rcases (mem_rowKeys_rowSet _ _ _ _).1 h' with h'' | h'' <;> tauto

theorem mem_rowKeys_groupInit (cf nf : String) (item : Row) (k : String)
    (h : k ∈ rowKeys (groupInit cf nf item)) :
    k = cf ∨ k = nf ∨ k = "count" := by
  have := mem_rowKeys_mkRow _ _ h
  simpa using this

/-- Row predicates survive an in-place association-list update. -/
theorem updateAssoc_pres {K : Row → Prop} (acc : List (String × Row)) (k : String)
    (f : Row → Row) (hacc : ∀ p ∈ acc, K p.2) (hf : ∀ r, K r → K (f r)) :
    ∀ p ∈ updateAssoc acc k f, K p.2 := by
  induction acc with
  | nil => intro p hp; simp [updateAssoc] at hp
  | cons q rest ih =>
      obtain ⟨k', r⟩ := q
      intro p hp
      simp only [updateAssoc] at hp
      split at hp
      · rcases List.mem_cons.1 hp with rfl | hmem
        · exact hf _ (hacc (k', r) (by simp))
        · exact hacc _ (List.mem_cons_of_mem _ hmem)
      · rcases List.mem_cons.1 hp with rfl | hmem
        · exact hacc (k', r) (by simp)
        · exact ih (fun p hp => hacc _ (List.mem_cons_of_mem _ hp)) _ hmem

/-- Every group row built by the grouping fold only ever holds the category
field, the numeric field and the `count` column. -/
theorem groupFold_keys (cf nf : String) (items : List Row) (acc : List (String × Row))
    (hacc : ∀ p ∈ acc, ∀ k ∈ rowKeys p.2, k = cf ∨ k = nf ∨ k = "count") :
    ∀ p ∈ items.foldl (groupStep cf nf) acc,
      ∀ k ∈ rowKeys p.2, k = cf ∨ k = nf ∨ k = "count" := by
  induction items generalizing acc with
  | nil => exact hacc
  | cons item rest ih =>
      simp only [List.foldl_cons]
      apply ih
      unfold groupStep
      refine updateAssoc_pres (K := fun r => ∀ k ∈ rowKeys r, k = cf ∨ k = nf ∨ k = "count") _ _ _ ?_ ?_
      · split
        · exact hacc
        · intro p hp
          rcases List.mem_append.1 hp with hmem | hmem
          · exact hacc _ hmem
          · simp only [List.mem_singleton] at hmem
            rw [hmem]
            exact fun k hk => mem_rowKeys_groupInit cf nf item k hk
      · intro r hr k hk
        rcases mem_rowKeys_groupUpdate nf item r k hk with h | h | h
        · tauto
        · tauto
        · exact hr k h

theorem mem_categoricalRows (cf nf : String) (data : List Row) (m : ℕ) (r : Row)
    (hr : r ∈ categoricalRows cf nf data m) :
    ∀ k ∈ rowKeys r, k = cf ∨ k = nf ∨ k = "count" := by
  unfold categoricalRows at hr
  have h1 : r ∈ sortBy (rowBefore nf) ((data.foldl (groupStep cf nf) []).map Prod.snd) :=
    List.take_subset _ _ hr
  have h2 : r ∈ (data.foldl (groupStep cf nf) []).map Prod.snd := (mem_sortBy _ _ _).1 h1
  obtain ⟨p, hp, rfl⟩ := List.mem_map.1 h2
  exact groupFold_keys cf nf data [] (by simp) p hp

theorem length_categoricalRows (cf nf : String) (data : List Row) (m : ℕ) :
    (categoricalRows cf nf data m).length ≤ m := by
  unfold categoricalRows
  exact List.length_take_le _ _

theorem length_numericOnlyRows (nfs : List String) (data : List Row) :
    (numericOnlyRows nfs data).length = nfs.length := by
  unfold numericOnlyRows; exact List.length_map _ _

/-- Branch-level row-count bound: every branch of the reducer past the
early return emits at most `max maxEntries (max 5 c)` rows, where `c` is
the column count of the first row. -/
theorem aggregateLarge_length (data : List Row) (m : ℕ) :
    (aggregateLarge data m).length ≤ max m (max 5 (rowKeys (data.headD [])).length) := by
  unfold aggregateLarge
  split
  · have h : (outcomeRows data).length = 2 := rfl
    omega
  split
  · have h : (ageRows data).length = 5 := rfl
    omega
  split
  · have h := length_categoricalRows
      ((categoryFieldsOf (data.headD []) (numericFieldsOf (data.headD []))).headD "")
      ((numericFieldsOf (data.headD [])).headD "") data m
    omega
  split
  · have h := length_numericOnlyRows (numericFieldsOf (data.headD [])) data
    have h2 : (numericFieldsOf (data.headD [])).length ≤ (rowKeys (data.headD [])).length :=
      List.length_filter_le _ _
    omega
  · have h := List.length_take_le m data
    omega

theorem aggregateDataCore_length (data : List Row) (m : ℕ) :
    (aggregateDataCore data m).length ≤ max m (max 5 (rowKeys (data.headD [])).length) := by
  unfold aggregateDataCore
  split
  · next h => omega
  · exact aggregateLarge_length data m

/-! ### Claim C1: the row budget -/

/-- C1 counterexample: the table `[{Outcome:1},{Outcome:0}]` with row budget
`maxEntries = 1` exceeds the budget (2 rows > 1), yet `aggregateData`
returns 2 rows, breaking the claimed `≤ maxEntries` bound. -/
theorem aggregateData_row_budget_cex :
    1 < c1cexData.length ∧ ¬ (aggregateDataCore c1cexData 1).length ≤ 1 :=
  of_decide_eq_true (by with_unfolding_all rfl)

/-- C1 (amended): for every row budget `maxEntries ≥ 1`, a `null` table and
a table of at most `maxEntries` rows are returned unchanged; otherwise the
reduced table has at most `max maxEntries (max 5 c)` rows, where `c` is the
column count of the first row — the `≤ maxEntries` budget itself holds on
the categorical-aggregation and truncation branches, but the Outcome branch
always returns 2 rows, the Age branch 5 rows, and the numeric-only branch
one row per numeric column, regardless of the budget. -/
theorem aggregateData_row_budget (data : List Row) (m : ℕ) (hm : 1 ≤ m) :
    aggregateData none m = none ∧
    (data.length ≤ m → aggregateData (some data) m = some data) ∧
    (aggregateDataCore data m).length ≤ max m (max 5 (rowKeys (data.headD [])).length) := by
  refine ⟨rfl, fun hsmall => ?_, aggregateDataCore_length data m⟩
  simp [aggregateData, aggregateDataCore, hsmall]

/-- C1 witness: the amended bound instantiated on the Outcome table at
budget 1 (the branch emits 2 rows, within `max 1 (max 5 1) = 5`). -/
theorem aggregateData_row_budget_witness :
    aggregateData none 1 = none ∧
    (c1cexData.length ≤ 1 → aggregateData (some c1cexData) 1 = some c1cexData) ∧
    (aggregateDataCore c1cexData 1).length ≤
      max 1 (max 5 (rowKeys (c1cexData.headD [])).length) :=
  aggregateData_row_budget c1cexData 1 (by decide)

/-! ### Claim C2: the worked grouping scenario -/

/-- C2 counterexample: on the example table with budget 1 the result is not
exactly `[{category:"B", value:20}]` — the reducer also stores a `count`
column in every group row. -/
theorem aggregateData_scenario_cex :
    aggregateData (some c2exData) 1 ≠
      some [[("category", JVal.str "B"), ("value", JVal.num 20)]] :=
  of_decide_eq_true (by with_unfolding_all rfl)

/-- C2 (amended): grouping by `category` sums `value` into `{A:15, B:20}`,
sorts the groups descending by the summed value and truncates to the
single row for `B`; the emitted row additionally carries the group size,
so the exact result is `[{category:"B", value:20, count:1}]`. -/
theorem aggregateData_scenario :
    aggregateData (some c2exData) 1 =
      some [[("category", JVal.str "B"), ("value", JVal.num 20),
             ("count", JVal.num 1)]] :=
  of_decide_eq_true (by with_unfolding_all rfl)

/-! ### Claim C3: column sets of reduced rows -/

/-- C3 counterexample: reducing the numeric-only table emits a row whose
`metric` column is neither a column of the input table nor a group-count
column. -/
theorem aggregateData_columns_cex :
    "metric" ∈ rowKeys ((aggregateDataCore c3cexData 1).headD []) ∧
    ¬ ("metric" ∈ allKeys c3cexData ∨ "metric" = "count") :=
  of_decide_eq_true (by with_unfolding_all rfl)

/-- C3 (amended): every row of the reduced table either only uses columns of
the input table plus at most the group-count column `count` (the unchanged,
categorical-aggregation and truncation branches), or is one of the two fixed
synthetic shapes: `{metric, average, count}` on the numeric-only branch and
`{category, count}` on the Outcome/Age branches. -/
theorem aggregateData_columns (data : List Row) (m : ℕ) (r : Row)
    (hr : r ∈ aggregateDataCore data m) :
    (∀ k ∈ rowKeys r, k ∈ allKeys data ∨ k = "count") ∨
    rowKeys r = ["metric", "average", "count"] ∨
    rowKeys r = ["category", "count"] := by
  have hsub : ∀ s ∈ data, ∀ k ∈ rowKeys s, k ∈ allKeys data ∨ k = "count" := by
    intro s hs k hk
    left
    exact List.mem_flatten.2 ⟨rowKeys s, List.mem_map_of_mem rowKeys hs, hk⟩
  unfold aggregateDataCore at hr
  split at hr
  · exact Or.inl (hsub r hr)
  next hbig =>
  have hne : data ≠ [] := by
    intro h
    rw [h] at hbig
    exact hbig (by simp)
  have hfirst : data.headD [] ∈ data := by
    cases data with
    | nil => exact absurd rfl hne
    | cons a l => simp
  unfold aggregateLarge at hr
  split at hr
  · -- Outcome branch
    unfold outcomeRows at hr
    rcases List.mem_cons.1 hr with h1 | h1
    · subst h1; right; right; rfl
    rcases List.mem_cons.1 h1 with h2 | h2
    · subst h2; right; right; rfl
    simp at h2
  split at hr
  · -- Age branch
    unfold ageRows at hr
    rcases List.mem_cons.1 hr with h1 | h1
    · subst h1; right; right; rfl
    rcases List.mem_cons.1 h1 with h2 | h2
    · subst h2; right; right; rfl
    rcases List.mem_cons.1 h2 with h3 | h3
    · subst h3; right; right; rfl
    rcases List.mem_cons.1 h3 with h4 | h4
    · subst h4; right; right; rfl
    rcases List.mem_cons.1 h4 with h5 | h5
    · subst h5; right; right; rfl
    simp at h5
  split at hr
  · -- categorical branch
    next hcond =>
    left
    intro k hk
    have hgood := mem_categoricalRows _ _ data m r hr k hk
    rw [Bool.and_eq_true] at hcond
    have hcne : categoryFieldsOf (data.headD []) (numericFieldsOf (data.headD [])) ≠ [] := by
      intro h
      rw [h] at hcond
      simp at hcond
    have hnne : numericFieldsOf (data.headD []) ≠ [] := by
      intro h
      rw [h] at hcond
      simp at hcond
    rcases hgood with rfl | rfl | rfl
    · exact hsub _ hfirst _ (categoryFieldsOf_subset _ _ (headD_mem_of_ne_nil hcne ""))
    · exact hsub _ hfirst _ (numericFieldsOf_subset _ (headD_mem_of_ne_nil hnne ""))
    · right; rfl
  split at hr
  · -- numeric-only branch
    right; left
    obtain ⟨f, hf, rfl⟩ := List.mem_map.1 hr
    rfl
  · -- truncation branch
    exact Or.inl (hsub r (List.take_subset _ _ hr))

/-- C3 witness: a group row of the worked example at budget 1 only uses the
input columns `category`, `value` plus the group-count column. -/
theorem aggregateData_columns_witness :
    (∀ k ∈ rowKeys ((aggregateDataCore c2exData 1).headD []), k ∈ allKeys c2exData ∨ k = "count") ∨
    rowKeys ((aggregateDataCore c2exData 1).headD []) = ["metric", "average", "count"] ∨
    rowKeys ((aggregateDataCore c2exData 1).headD []) = ["category", "count"] :=
  aggregateData_columns c2exData 1 ((aggregateDataCore c2exData 1).headD [])
    (of_decide_eq_true (by with_unfolding_all rfl))

/-! ### Claim C4: idempotence in row count -/

/-- C4 counterexample: reducing `[{Outcome:1},{Outcome:0}]` at budget 1
yields 2 rows; reducing that result again at the same budget regroups it by
`category` and truncates to 1 row, so the row count is not preserved. -/
theorem aggregateData_idempotent_cex :
    ¬ (aggregateDataCore (aggregateDataCore c4cexData 1) 1).length =
        (aggregateDataCore c4cexData 1).length :=
  of_decide_eq_true (by with_unfolding_all rfl)

/-- C4 (amended): reduction is idempotent in row count whenever the budget
accommodates every branch's output, i.e. when `maxEntries ≥ 5` and
`maxEntries` is at least the column count of the first row; the first
reduction then fits the budget and the second application returns its input
unchanged.  (For smaller budgets the fixed-size Outcome/Age and numeric-only
outputs can exceed the budget and are reduced further by the second pass.) -/
theorem aggregateData_idempotent (data : List Row) (m : ℕ) (h5 : 5 ≤ m)
    (hk : (rowKeys (data.headD [])).length ≤ m) :
    (aggregateDataCore (aggregateDataCore data m) m).length =
      (aggregateDataCore data m).length := by
  have hb := aggregateDataCore_length data m
  have hle : (aggregateDataCore data m).length ≤ m := by omega
  have hfix : ∀ l : List Row, l.length ≤ m → aggregateDataCore l m = l := by
    intro l h
    unfold aggregateDataCore
    rw [if_pos h]
  rw [hfix _ hle]

/-- C4 witness: a six-row Outcome table at budget 5 reduces to 2 rows, and
a second reduction leaves the row count unchanged. -/
theorem aggregateData_idempotent_witness :
    (aggregateDataCore (aggregateDataCore c4witData 5) 5).length =
      (aggregateDataCore c4witData 5).length :=
  aggregateData_idempotent c4witData 5 (by decide) (by decide)

/-! ### Frame lemmas for the store-passing embedding -/

theorem getD_append_left (l l' : List Row) (a : ℕ) (d : Row) (ha : a < l.length) :
    (l ++ l').getD a d = l.getD a d := by
  induction l generalizing a with
  | nil => exact absurd ha (by simp)
  | cons x xs ih =>
      cases a with
      | zero => rfl
      | succ n => simpa [List.getD_cons_succ] using ih n (by simpa using ha)

theorem getD_set_ne (l : List Row) (i j : ℕ) (x d : Row) (hij : i ≠ j) :
    (l.set i x).getD j d = l.getD j d := by
  induction l generalizing i j with
  | nil => simp [List.set]
  | cons y ys ih =>
      cases i with
      | zero =>
          cases j with
          | zero => exact absurd rfl hij
          | succ k => simp [List.set, List.getD_cons_succ]
      | succ n =>
          cases j with
          | zero => simp [List.set, List.getD_cons_zero]
          | succ k =>
              simp only [List.set, List.getD_cons_succ]
              exact ih n k (by omega)

theorem frameOn_refl (n : ℕ) (h : Heap) (hn : n ≤ h.rows.length) : FrameOn n h h :=
  ⟨hn, fun _ _ => rfl⟩

theorem frameOn_trans {n : ℕ} {h1 h2 h3 : Heap}
    (f12 : FrameOn n h1 h2) (f23 : FrameOn n h2 h3) : FrameOn n h1 h3 :=
  ⟨f23.1, fun a ha => (f23.2 a ha).trans (f12.2 a ha)⟩

theorem frameOn_halloc (n : ℕ) (h : Heap) (r : Row) (hn : n ≤ h.rows.length) :
    FrameOn n h (halloc h r).1 := by
  refine ⟨by simp [halloc]; omega, fun a ha => ?_⟩
  unfold hread halloc
  exact getD_append_left _ _ _ _ (lt_of_lt_of_le ha hn)

theorem frameOn_hwrite (n : ℕ) (h : Heap) (b : ℕ) (r : Row)
    (hn : n ≤ h.rows.length) (hb : n ≤ b) : FrameOn n h (hwrite h b r) := by
  refine ⟨by simpa [hwrite] using hn, fun a ha => ?_⟩
  unfold hread hwrite
  exact getD_set_ne _ _ _ _ _ (by omega)

theorem length_halloc (h : Heap) (r : Row) :
    (halloc h r).1.rows.length = h.rows.length + 1 := by simp [halloc]

theorem length_hwrite (h : Heap) (b : ℕ) (r : Row) :
    (hwrite h b r).rows.length = h.rows.length := by simp [hwrite]

/-- Fold invariant: every step preserving a predicate and the frame on the
first `n` objects yields a frame-preserving fold. -/
theorem foldl_frame {σ β : Type} (step : σ → β → σ) (proj : σ → Heap) (n : ℕ)
    (P : σ → Prop)
    (hlen : ∀ s, P s → n ≤ (proj s).rows.length)
    (hstep : ∀ s b, P s → P (step s b) ∧ FrameOn n (proj s) (proj (step s b)))
    (l : List β) (s : σ) (hs : P s) :
    P (l.foldl step s) ∧ FrameOn n (proj s) (proj (l.foldl step s)) := by
  induction l generalizing s with
  | nil => exact ⟨hs, frameOn_refl n _ (hlen s hs)⟩
  | cons b rest ih =>
      obtain ⟨hP, hF⟩ := hstep s b hs
      obtain ⟨hP', hF'⟩ := ih _ hP
      exact ⟨hP', frameOn_trans hF hF'⟩

theorem outcomeFoldH_frame (n a0 a1 : ℕ) (h0 : n ≤ a0) (h1 : n ≤ a1)
    (addrs : List ℕ) (h : Heap) (hn : n ≤ h.rows.length) :
    FrameOn n h (outcomeFoldH a0 a1 h addrs) := by
  unfold outcomeFoldH
  refine (foldl_frame _ (fun h => h) n (fun h => n ≤ h.rows.length)
    (fun s hs => hs) ?_ addrs h hn).2
  intro s b hs
  dsimp only
  split
  · exact ⟨by rw [length_hwrite]; exact hs, frameOn_hwrite n s a0 _ hs h0⟩
  · exact ⟨by rw [length_hwrite]; exact hs, frameOn_hwrite n s a1 _ hs h1⟩

theorem ageIndex_lt (item : Row) : ageIndex item < 5 := by
  unfold ageIndex
  cases jsNumberV (rowGet item "Age") with
  | none => decide
  | some q =>
      show (if q < 30 then 0 else if q < 40 then 1
            else if q < 50 then 2 else if q < 60 then 3 else 4) < 5
      split_ifs <;> decide

theorem getD_mem_of_lt (l : List ℕ) (i d : ℕ) (h : i < l.length) : l.getD i d ∈ l := by
  induction l generalizing i with
  | nil => exact absurd h (by simp)
  | cons x xs ih =>
      cases i with
      | zero => simp [List.getD_cons_zero]
      | succ k =>
          simp only [List.getD_cons_succ]
          exact List.mem_cons_of_mem _ (ih k (by simpa using h))

theorem ageFoldH_frame (n : ℕ) (bs : List ℕ) (hbs : ∀ b ∈ bs, n ≤ b)
    (hlen5 : bs.length = 5) (addrs : List ℕ) (h : Heap) (hn : n ≤ h.rows.length) :
    FrameOn n h (ageFoldH bs h addrs) := by
  unfold ageFoldH
  refine (foldl_frame _ (fun h => h) n (fun h => n ≤ h.rows.length)
    (fun s hs => hs) ?_ addrs h hn).2
  intro s b hs
  dsimp only
  have hmem : bs.getD (ageIndex (hread s b)) 0 ∈ bs :=
    getD_mem_of_lt bs _ 0 (by rw [hlen5]; exact ageIndex_lt _)
  exact ⟨by rw [length_hwrite]; exact hs,
         frameOn_hwrite n s _ _ hs (hbs _ hmem)⟩

theorem ageAllocH_spec (n : ℕ) (h : Heap) (hn : n ≤ h.rows.length) :
    (n ≤ (ageAllocH h).1.rows.length ∧ ∀ b ∈ (ageAllocH h).2, n ≤ b) ∧
      FrameOn n h (ageAllocH h).1 := by
  unfold ageAllocH
  have := foldl_frame
    (fun (st : Heap × List ℕ) lab =>
      ((halloc st.1 (mkRow [("category", JVal.str lab), ("count", JVal.num 0)])).1,
       st.2 ++ [(halloc st.1 (mkRow [("category", JVal.str lab), ("count", JVal.num 0)])).2]))
    (fun st => st.1) n
    (fun st => n ≤ st.1.rows.length ∧ ∀ b ∈ st.2, n ≤ b)
    (fun s hs => hs.1)
    (fun s b hs => by
      refine ⟨⟨by rw [length_halloc]; omega, ?_⟩, frameOn_halloc n s.1 _ hs.1⟩
      intro x hx
      rcases List.mem_append.1 hx with hx | hx
      · exact hs.2 x hx
      · simp only [List.mem_singleton] at hx
        subst hx
        exact hs.1)
    ageLabels (h, []) ⟨hn, by simp⟩
  -- the fold body written in `ageAllocH` matches the step above after
  -- flattening the `let`
  exact ⟨this.1, this.2⟩

theorem ageAllocH_len (h : Heap) : (ageAllocH h).2.length = 5 := by
  simp [ageAllocH, ageLabels, List.foldl_cons, List.foldl_nil]

theorem ageH_frame (n : ℕ) (h : Heap) (addrs : List ℕ) (hn : n ≤ h.rows.length) :
    FrameOn n h (ageH h addrs).1 := by
  obtain ⟨⟨hlen, hbs⟩, hF⟩ := ageAllocH_spec n h hn
  exact frameOn_trans hF (ageFoldH_frame n _ hbs (ageAllocH_len h) addrs _ hlen)

theorem outcomeH_frame (n : ℕ) (h : Heap) (addrs : List ℕ) (hn : n ≤ h.rows.length) :
    FrameOn n h (outcomeH h addrs).1 := by
  have hF0 := frameOn_halloc n h
    (mkRow [("category", JVal.str "Positive (1)"), ("count", JVal.num 0)]) hn
  have hF1 := frameOn_halloc n
    (halloc h (mkRow [("category", JVal.str "Positive (1)"), ("count", JVal.num 0)])).1
    (mkRow [("category", JVal.str "Negative (0)"), ("count", JVal.num 0)]) hF0.1
  have ha0 : n ≤
      (halloc h (mkRow [("category", JVal.str "Positive (1)"), ("count", JVal.num 0)])).2 := hn
  have ha1 : n ≤
      (halloc (halloc h (mkRow [("category", JVal.str "Positive (1)"), ("count", JVal.num 0)])).1
        (mkRow [("category", JVal.str "Negative (0)"), ("count", JVal.num 0)])).2 := by
    show n ≤
      (halloc h (mkRow [("category", JVal.str "Positive (1)"), ("count", JVal.num 0)])).1.rows.length
    rw [length_halloc]
    omega
  have hFfold := outcomeFoldH_frame n _ _ ha0 ha1 addrs _ hF1.1
  exact frameOn_trans (frameOn_trans hF0 hF1) hFfold

theorem groupAlloc_spec (n : ℕ) (cf nf key : String) (st : Heap × List (String × ℕ))
    (item : Row) (hlen : n ≤ st.1.rows.length) (haddr : ∀ p ∈ st.2, n ≤ p.2) :
    (n ≤ (groupAlloc cf nf key st item).1.rows.length ∧
      ∀ p ∈ (groupAlloc cf nf key st item).2, n ≤ p.2) ∧
    FrameOn n st.1 (groupAlloc cf nf key st item).1 ∧
    ((groupAlloc cf nf key st item).2.any (fun p => p.1 == key)) = true := by
  unfold groupAlloc
  split
  · next hany => exact ⟨⟨hlen, haddr⟩, frameOn_refl n _ hlen, hany⟩
  · next hany =>
      refine ⟨⟨by rw [length_halloc]; omega, ?_⟩, frameOn_halloc n st.1 _ hlen, ?_⟩
      · intro p hp
        rcases List.mem_append.1 hp with hp | hp
        · exact haddr p hp
        · simp only [List.mem_singleton] at hp
          subst hp
          exact hlen
      · simp [List.any_append]

theorem groupAddr_mem (key : String) (assoc : List (String × ℕ))
    (hany : assoc.any (fun p => p.1 == key) = true) :
    groupAddr key assoc ∈ assoc.map Prod.snd := by
  unfold groupAddr
  cases hf : assoc.find? (fun p => p.1 == key) with
  | none =>
      obtain ⟨p, hp, hpk⟩ := List.any_eq_true.1 hany
      exact absurd hpk (by simpa using List.find?_eq_none.1 hf p hp)
  | some p =>
      exact List.mem_map_of_mem Prod.snd (List.mem_of_find?_eq_some hf)

theorem groupStepH_spec (n : ℕ) (cf nf : String) (st : Heap × List (String × ℕ)) (a : ℕ)
    (hlen : n ≤ st.1.rows.length) (haddr : ∀ p ∈ st.2, n ≤ p.2) :
    (n ≤ (groupStepH cf nf st a).1.rows.length ∧
      ∀ p ∈ (groupStepH cf nf st a).2, n ≤ p.2) ∧
    FrameOn n st.1 (groupStepH cf nf st a).1 := by
  obtain ⟨⟨hlen1, haddr1⟩, hF1, hany⟩ :=
    groupAlloc_spec n cf nf (jsToString (rowGet (hread st.1 a) cf)) st (hread st.1 a)
      hlen haddr
  have hmem := groupAddr_mem _ _ hany
  obtain ⟨p, hp, hpeq⟩ := List.mem_map.1 hmem
  have hge : n ≤ groupAddr (jsToString (rowGet (hread st.1 a) cf))
      (groupAlloc cf nf (jsToString (rowGet (hread st.1 a) cf)) st (hread st.1 a)).2 := by
    rw [← hpeq]
    exact haddr1 p hp
  have hFw := frameOn_hwrite n
    (groupAlloc cf nf (jsToString (rowGet (hread st.1 a) cf)) st (hread st.1 a)).1
    (groupAddr (jsToString (rowGet (hread st.1 a) cf))
      (groupAlloc cf nf (jsToString (rowGet (hread st.1 a) cf)) st (hread st.1 a)).2)
    (groupUpdate nf (hread st.1 a)
      (hread (groupAlloc cf nf (jsToString (rowGet (hread st.1 a) cf)) st (hread st.1 a)).1
        (groupAddr (jsToString (rowGet (hread st.1 a) cf))
          (groupAlloc cf nf (jsToString (rowGet (hread st.1 a) cf)) st (hread st.1 a)).2)))
    hlen1 hge
  refine ⟨⟨?_, ?_⟩, frameOn_trans hF1 hFw⟩
  · show n ≤ (hwrite _ _ _).rows.length
    rw [length_hwrite]
    exact hlen1
  · exact haddr1

theorem categoricalH_frame (n : ℕ) (cf nf : String) (h : Heap) (addrs : List ℕ) (m : ℕ)
    (hn : n ≤ h.rows.length) : FrameOn n h (categoricalH cf nf h addrs m).1 := by
  unfold categoricalH
  exact (foldl_frame (groupStepH cf nf) (fun st => st.1) n
    (fun st => n ≤ st.1.rows.length ∧ ∀ p ∈ st.2, n ≤ p.2)
    (fun s hs => hs.1)
    (fun s b hs => by
      obtain ⟨h1, h2⟩ := groupStepH_spec n cf nf s b hs.1 hs.2
      exact ⟨h1, h2⟩)
    addrs (h, []) ⟨hn, by simp⟩).2

theorem numericOnlyH_frame (n : ℕ) (nfs : List String) (h : Heap) (addrs : List ℕ)
    (hn : n ≤ h.rows.length) : FrameOn n h (numericOnlyH nfs h addrs).1 := by
  unfold numericOnlyH
  exact (foldl_frame _ (fun (st : Heap × List ℕ) => st.1) n
    (fun st => n ≤ st.1.rows.length)
    (fun s hs => hs)
    (fun s b hs => by
      dsimp only
      exact ⟨by rw [length_halloc]; omega, frameOn_halloc n s.1 _ hs⟩)
    nfs (h, []) hn).2

/-- The store-passing reducer never touches an object allocated before the
call: every branch only writes to objects it allocated itself. -/
theorem aggregateDataH_frame (h : Heap) (addrs : List ℕ) (m : ℕ) (a : ℕ)
    (ha : a < h.rows.length) :
    hread (aggregateDataH h addrs m).1 a = hread h a := by
  unfold aggregateDataH
  split
  · rfl
  split
  · exact (outcomeH_frame h.rows.length h addrs le_rfl).2 a ha
  split
  · exact (ageH_frame h.rows.length h addrs le_rfl).2 a ha
  split
  · exact (categoricalH_frame h.rows.length _ _ h addrs m le_rfl).2 a ha
  split
  · exact (numericOnlyH_frame h.rows.length _ h addrs le_rfl).2 a ha
  · rfl

/-! ### Claim C5: determinism and absence of mutation -/

/-- C5: `aggregateData` is a pure function of its arguments — equal
`(store, table, maxEntries)` inputs give equal results, with no randomness
or external state — and, in the store-passing embedding, the call never
mutates a previously allocated object: the input rows (and any other
pre-existing object) read back unchanged from the resulting store. -/
theorem aggregateData_pure_no_mutation :
    (∀ (h₁ h₂ : Heap) (d₁ d₂ : List ℕ) (m₁ m₂ : ℕ),
        h₁ = h₂ → d₁ = d₂ → m₁ = m₂ →
        aggregateDataH h₁ d₁ m₁ = aggregateDataH h₂ d₂ m₂) ∧
    (∀ (h : Heap) (d : List ℕ) (m a : ℕ), a < h.rows.length →
        hread (aggregateDataH h d m).1 a = hread h a) := by
  constructor
  · intro h₁ h₂ d₁ d₂ m₁ m₂ hh hd hm
    rw [hh, hd, hm]
  · intro h d m a ha
    exact aggregateDataH_frame h d m a ha

/-! ### Claim C6: best-effort query handling -/

/-- C6: with a non-blank query, uploaded data, a valid key and a live
server flag, a failing backend call `processQuery` is caught:
`handleQuerySubmit` surfaces no error, falls back to the original uploaded
data and still hands `(userData, query, selectedChartType)` to chart-code
generation. -/
theorem handleQuerySubmit_fallback (q : String) (d : List Row) (ct e : String)
    (hq : jsTrim q ≠ "") :
    handleQuerySubmit q (some d) true true ct (Except.error e) =
      { error := none, generateArgs := some (d, q, ct),
        insightsSet := none, additionalCharts := none } := by
  simp [handleQuerySubmit, hq]

/-- C6 witness: a concrete query over a one-row table with a rejecting
backend still reaches generation with the original data and no error. -/
theorem handleQuerySubmit_fallback_witness :
    handleQuerySubmit "show sales" (some c6witData) true true "BarChart"
        (Except.error "network error") =
      { error := none, generateArgs := some (c6witData, "show sales", "BarChart"),
        insightsSet := none, additionalCharts := none } :=
  handleQuerySubmit_fallback "show sales" c6witData "BarChart" "network error" (by decide)

/-! ### Claim C7: unsupported upload formats are rejected -/

/-- C7: in both uploader variants, a file whose name ends in neither
`.csv` nor `.json` never reaches `onDataUpload` and always surfaces an
error; the error is the unsupported-format message whenever the handler
reaches its format dispatch (always in the local variant once the file
reads, and in the backend variant unless the server flag is exactly
`false`, which aborts every upload even earlier with a server error). -/
theorem handleFileUpload_unsupported (name : String) (rd : Except Unit String)
    (js : Except Unit (List Row)) (ss : Option Bool)
    (up1 up2 : Except String (List Row × JVal))
    (hcsv : endsWithStr name ".csv" = false)
    (hjson : endsWithStr name ".json" = false) :
    (handleFileUploadLocal name rd js).uploaded = none ∧
    ((handleFileUploadLocal name rd js).error).isSome = true ∧
    (∀ t, rd = Except.ok t → (handleFileUploadLocal name rd js).error = some unsupportedMsg) ∧
    (handleFileUploadBackend name ss up1 up2).uploaded = none ∧
    ((handleFileUploadBackend name ss up1 up2).error).isSome = true ∧
    (ss ≠ some false →
      (handleFileUploadBackend name ss up1 up2).error = some unsupportedMsg) := by
  have hlocal : ∀ t, handleFileUploadLocal name (Except.ok t) js =
      { uploaded := none, error := some unsupportedMsg, success := none } := by
    intro t
    simp [handleFileUploadLocal, hcsv, hjson]
  have hback : ss ≠ some false → handleFileUploadBackend name ss up1 up2 =
      { uploaded := none, error := some unsupportedMsg, success := none } := by
    intro hss
    simp [handleFileUploadBackend, hss, hcsv, hjson]
  have hbU : (handleFileUploadBackend name ss up1 up2).uploaded = none := by
    by_cases hss : ss = some false
    · simp [handleFileUploadBackend, hss]
    · rw [hback hss]
  have hbE : ((handleFileUploadBackend name ss up1 up2).error).isSome = true := by
    by_cases hss : ss = some false
    · simp [handleFileUploadBackend, hss]
    · rw [hback hss]
      rfl
  have hbM : ss ≠ some false →
      (handleFileUploadBackend name ss up1 up2).error = some unsupportedMsg :=
    fun hss => by rw [hback hss]
  cases rd with
  | error u =>
      refine ⟨rfl, rfl, ?_, hbU, hbE, hbM⟩
      intro t ht
      exact absurd ht (by simp)
  | ok text =>
      refine ⟨by rw [hlocal text], by rw [hlocal text]; rfl, fun t ht => by rw [hlocal text],
        hbU, hbE, hbM⟩

/-- C7 witness: uploading `data.txt` is rejected with the unsupported-format
error and no data delivery in both variants. -/
theorem handleFileUpload_unsupported_witness :
    (handleFileUploadLocal "data.txt" (Except.ok "x") (Except.error ())).uploaded = none ∧
    ((handleFileUploadLocal "data.txt" (Except.ok "x") (Except.error ())).error).isSome = true ∧
    (∀ t, (Except.ok "x" : Except Unit String) = Except.ok t →
      (handleFileUploadLocal "data.txt" (Except.ok "x") (Except.error ())).error =
        some unsupportedMsg) ∧
    (handleFileUploadBackend "data.txt" (some true) (Except.error "e")
        (Except.error "e")).uploaded = none ∧
    ((handleFileUploadBackend "data.txt" (some true) (Except.error "e")
        (Except.error "e")).error).isSome = true ∧
    (some true ≠ some false →
      (handleFileUploadBackend "data.txt" (some true) (Except.error "e")
          (Except.error "e")).error = some unsupportedMsg) :=
  handleFileUpload_unsupported "data.txt" (Except.ok "x") (Except.error ()) (some true)
    (Except.error "e") (Except.error "e") (by decide) (by decide)

/-! ### Claim C8: `parseCSV` row shape -/

theorem mem_rowKeys_csvRowGo (values : List String) (e : Row) (i : ℕ) (hs : List String)
    (k : String) :
    k ∈ rowKeys (csvRowGo values e i hs) ↔ k ∈ rowKeys e ∨ k ∈ hs := by
  induction hs generalizing e i with
  | nil => simp [csvRowGo]
  | cons hd rest ih =>
      simp only [csvRowGo, ih, mem_rowKeys_rowSet, List.mem_cons]
      tauto

/-- C8: every row produced by `parseCSV` has exactly the header line's
column names as its key set — even when a data line supplies fewer
comma-separated values than there are headers — and data lines that are
empty or whitespace-only are skipped, producing no rows. -/
theorem parseCSV_columns (text : String) :
    (∀ r ∈ parseCSV text, (rowKeys r).toFinset = (csvHeaders text).toFinset) ∧
    (parseCSV text).length =
      ((splitChar '\n' text.data).drop 1).countP
        (fun l => String.mk (trimChars l) ≠ "") := by
  constructor
  · intro r hr
    unfold parseCSV at hr
    obtain ⟨l, hl, rfl⟩ := List.mem_map.1 hr
    apply Finset.ext
    intro k
    simp only [List.mem_toFinset]
    unfold csvRow
    rw [mem_rowKeys_csvRowGo]
    simp [rowKeys]
  · unfold parseCSV
    rw [List.length_map, List.countP_eq_length_filter]

/-! ### Claim C9: total boolean health check -/

/-- C9: `checkServerStatus` returns a boolean on every outcome of the
health-check request — `true` exactly when the fetch resolves with an `ok`
response, `false` on a non-`ok` response and on rejection (the `catch`
branch); it never throws. -/
theorem checkServerStatus_boolean (o : FetchOutcome) :
    checkServerStatus o = decide (o = FetchOutcome.resolved true) := by
  cases o with
  | resolved ok => cases ok <;> rfl
  | rejected => rfl

/-! ### Claim C10: the cleaned code contains a render call -/

theorem replaceScan_id (m : List Char → Option (List Char × List Char)) (fuel : ℕ)
    (cs : List Char) (h : hasMatchO m cs = false) : replaceScan m fuel cs = cs := by
  induction cs generalizing fuel with
  | nil => cases fuel <;> rfl
  | cons c rest ih =>
      unfold hasMatchO at h
      rw [Bool.or_eq_false_iff] at h
      have hm : m (c :: rest) = none := by
        cases hmc : m (c :: rest) with
        | none => rfl
        | some x => rw [hmc] at h; simp at h
      cases fuel with
      | zero => rfl
      | succ f =>
          simp only [replaceScan, hm]
          rw [ih f h.2]

theorem removeFirst_id (m : List Char → Option (List Char)) (fuel : ℕ)
    (cs : List Char) (h : hasMatchO m cs = false) : removeFirst m fuel cs = cs := by
  induction cs generalizing fuel with
  | nil => cases fuel <;> rfl
  | cons c rest ih =>
      unfold hasMatchO at h
      rw [Bool.or_eq_false_iff] at h
      have hm : m (c :: rest) = none := by
        cases hmc : m (c :: rest) with
        | none => rfl
        | some x => rw [hmc] at h; simp at h
      cases fuel with
      | zero => rfl
      | succ f =>
          simp only [removeFirst, hm]
          rw [ih f h.2]

theorem replaceAll_id (m : List Char → Option (List Char × List Char)) (cs : List Char)
    (h : hasMatchO m cs = false) : replaceAll m cs = cs :=
  replaceScan_id m cs.length cs h

theorem findFirst_eq_none {α : Type} (m : List Char → Option α) (cs : List Char)
    (h : hasMatchO m cs = false) : findFirst m cs = none := by
  induction cs with
  | nil => rfl
  | cons c rest ih =>
      unfold hasMatchO at h
      rw [Bool.or_eq_false_iff] at h
      have hm : m (c :: rest) = none := by
        cases hmc : m (c :: rest) with
        | none => rfl
        | some x => rw [hmc] at h; simp at h
      simp only [findFirst, hm]
      exact ih h.2

theorem isPrefixOf_append_right (pat u t : List Char) (h : pat.isPrefixOf u = true) :
    pat.isPrefixOf (u ++ t) = true := by
  induction pat generalizing u with
  | nil => simp [List.isPrefixOf]
  | cons p ps ih =>
      cases u with
      | nil => simp [List.isPrefixOf] at h
      | cons x xs =>
          simp only [List.cons_append, List.isPrefixOf, Bool.and_eq_true] at h ⊢
          exact ⟨h.1, ih xs h.2⟩

theorem containsSub_append_left (pat s t : List Char) (h : containsSub pat s = true) :
    containsSub pat (s ++ t) = true := by
  induction s with
  | nil =>
      unfold containsSub at h
      have : pat = [] := by
        cases pat with
        | nil => rfl
        | cons p ps => simp at h
      subst this
      cases t with
      | nil => rfl
      | cons c cs => simp [containsSub, List.isPrefixOf]
  | cons c rest ih =>
      unfold containsSub at h
      rw [Bool.or_eq_true] at h
      show (pat.isPrefixOf (c :: (rest ++ t)) || containsSub pat (rest ++ t)) = true
      rw [Bool.or_eq_true]
      rcases h with h | h
      · exact Or.inl (isPrefixOf_append_right _ _ t h)
      · exact Or.inr (ih h)

theorem containsSub_append_right (pat s t : List Char) (h : containsSub pat t = true) :
    containsSub pat (s ++ t) = true := by
  induction s with
  | nil => exact h
  | cons c rest ih =>
      show (pat.isPrefixOf (c :: (rest ++ t)) || containsSub pat (rest ++ t)) = true
      rw [Bool.or_eq_true]
      exact Or.inr ih

/-- The appended react-live call always contains `render(`. -/
theorem containsSub_renderCall (cs name : List Char) :
    containsSub "render(".data (cs ++ renderCallFor name) = true := by
  apply containsSub_append_right
  unfold renderCallFor
  apply containsSub_append_left
  apply containsSub_append_left
  decide

/-- After the render-ensuring step, the intermediate code always contains
`render(`: it either already did, or the appended call provides it. -/
theorem cleanThroughRender_contains (code : String) :
    containsSub "render(".data (cleanThroughRender code) = true := by
  unfold cleanThroughRender ensureRenderCall
  split
  · next h => exact h
  split
  · split
    · exact containsSub_renderCall _ _
    · exact containsSub_renderCall _ _
  · exact containsSub_renderCall _ _

/-- C10 counterexample: on the input `const data = [render(x)];` the
render check passes (the input already contains `render(`), but the later
hardcoded-data-array removal excises the entire text, so the returned code
contains no `render(` call. -/
theorem cleanGeneratedCode_render_cex :
    ¬ containsSub "render(".data (cleanGeneratedCode "const data = [render(x)];").data = true :=
  of_decide_eq_true (by with_unfolding_all rfl)

/-- C10 (amended): after stripping fences, `module.exports`, export-default
lines and `.render();` calls, the render-ensuring step guarantees the
intermediate code contains `render(`; the final output still contains it
provided none of the three later cleanup steps fires (no hardcoded
`const data = [...]` array, no `document.getElementById(...)` call, no
zero-argument component declaration) — each of those can, in corner cases,
excise the only render invocation. -/
theorem cleanGeneratedCode_render (code : String)
    (h6 : hasMatchO dataArrayMatchAt (cleanThroughRender code) = false)
    (h7 : hasMatchO getElementByIdMatch (cleanThroughRender code) = false)
    (h8 : hasMatchO zeroArgComponentAt (cleanThroughRender code) = false) :
    containsSub "render(".data (cleanThroughRender code) = true ∧
    containsSub "render(".data (cleanGeneratedCode code).data = true := by
  have hmid := cleanThroughRender_contains code
  refine ⟨hmid, ?_⟩
  unfold cleanGeneratedCode cleanAfterRender
  rw [removeFirst_id _ _ _ h6, replaceAll_id _ _ h7, findFirst_eq_none _ _ h8]
  exact hmid

/-- C10 witness: a plain input without a render call gets one appended,
and none of the later cleanup steps can remove it. -/
theorem cleanGeneratedCode_render_witness :
    containsSub "render(".data (cleanThroughRender "hello") = true ∧
    containsSub "render(".data (cleanGeneratedCode "hello").data = true :=
  cleanGeneratedCode_render "hello"
    (of_decide_eq_true (by with_unfolding_all rfl))
    (of_decide_eq_true (by with_unfolding_all rfl))
    (of_decide_eq_true (by with_unfolding_all rfl))

end ChartGen
